import Mathlib

/-!
Verification development for the Digital-Image-Processing toolbox.

Each Python source file relevant to the checked properties is shallowly
embedded below: pure numeric code becomes functions over `ℕ` / `ℤ` / `ℚ`
(8-bit pixel data is `ℕ` bounded by 255, float arithmetic is modelled
exactly over `ℚ` where the computations involved are exact in IEEE
double precision), fallible code returns a `PyResult`, and strings that
the code inspects character by character are modelled as `List Char`.
-/

/-- Errors a Python run can surface; payloads carry the relevant name or
message. -/
inductive PyErr where
  | assertionError
  | valueError
  | nameError (n : String)
  | zeroDivisionError
  | runtimeError (msg : String)
deriving DecidableEq

/-- Result of running a piece of Python code: a value or an uncaught
exception. -/
inductive PyResult (α : Type) where
  | ok (a : α)
  | err (e : PyErr)
deriving DecidableEq

instance : Monad PyResult where
  pure := .ok
  bind m f := match m with
    | .ok a => f a
    | .err e => .err e

/-- Evaluation of a Python `assert` statement. -/
def pyAssert (b : Bool) : PyResult Unit :=
  if b then .ok () else .err .assertionError

/-- Extraction of the value of a `PyResult`, when there is one. -/
def PyResult.isOk {α : Type} : PyResult α → Bool
  | .ok _ => true
  | .err _ => false

/-- Number of elements of a successful list-valued result (0 on an
error). -/
def PyResult.okLength {α : Type} : PyResult (List α) → ℕ
  | .ok l => l.length
  | .err _ => 0

/-- Python `int()` applied to a float: truncation toward zero, modelled
exactly on `ℚ`. -/
def pyTrunc (q : ℚ) : ℤ :=
  q.num.tdiv q.den

/-- NumPy `np.clip(x, 0, 255)`. -/
def clip255 (q : ℚ) : ℚ :=
  max 0 (min 255 q)

/-- The `astype(np.uint8)` cast applied after a clip to `[0, 255]`:
truncation toward zero, which agrees with the floor on nonnegative
values. -/
def toUint8 (q : ℚ) : ℕ :=
  (⌊clip255 q⌋).toNat

namespace Defog

/-!
Embedding of `fog-removal/defog_pipeline.py`, `KimDefogPipeline.dehaze`
steps 4-5 (lines 29-31): the fusion of the CLAHE branch and the wavelet
branch of the value channel.  Both branch outputs are `uint8` arrays of
the shape of the value channel; the fusion is
`v_fused = fusion_weight * v_clahe + (1 - fusion_weight) * v_dwt`
followed by `np.clip(v_fused, 0, 255).astype(np.uint8)`.
-/

/-- One pixel of `v_fused` (defog_pipeline.py lines 30-31). -/
def fusePixel (fusionWeight : ℚ) (vClahe vDwt : ℕ) : ℕ :=
  toUint8 (fusionWeight * vClahe + (1 - fusionWeight) * vDwt)

/-- The fused value channel, pixel by pixel, for equally shaped CLAHE and
wavelet branch outputs (modelled as flat pixel lists). -/
def fuseValueChannel (fusionWeight : ℚ) (vClahe vDwt : List ℕ) : List ℕ :=
  List.zipWith (fusePixel fusionWeight) vClahe vDwt

end Defog

namespace DCP

/-!
Embedding of `fog-removal/dcp.py`, `DarkChannelPrior._compute_atmospheric_light`
(lines 57-73).  The image is modelled as its flattened pixel list
`image_vec : List (ℚ × ℚ × ℚ)` and the flattened dark channel as
`dark_vec : List ℚ`, both of length `h * w`.  `dark_vec.argsort()` is an
ascending sort of the pixel indices by dark-channel value; NumPy leaves
the order of ties unspecified, and the embedding resolves them with a
stable insertion sort.
-/

/-- Value of `dark_vec[i]`. -/
def darkAt (dark : List ℚ) (i : ℕ) : ℚ :=
  dark.getD i 0

/-- Value of `image_vec[i]`. -/
def rgbAt (img : List (ℚ × ℚ × ℚ)) (i : ℕ) : ℚ × ℚ × ℚ :=
  img.getD i (0, 0, 0)

/-- The quantity `num_pixels = int(max(math.floor(img_size * self.atm_percentile), 1))`
(dcp.py line 60). -/
def numAtmPixels (size : ℕ) (atmPercentile : ℚ) : ℕ :=
  (max ⌊(size : ℚ) * atmPercentile⌋ 1).toNat

/-- The index permutation `dark_vec.argsort()` (dcp.py line 65),
ascending by dark-channel value. -/
def argsortDark (dark : List ℚ) : List ℕ :=
  List.insertionSort (fun i j => darkAt dark i ≤ darkAt dark j) (List.range dark.length)

/-- The slice `dark_vec.argsort()[-num_pixels:]` (dcp.py line 65): the
indices of the `n` brightest dark-channel pixels. -/
def topIndices (dark : List ℚ) (n : ℕ) : List ℕ :=
  (argsortDark dark).drop (dark.length - n)

/-- Componentwise sum of RGB triples, the loop accumulating `atm_sum`
(dcp.py lines 68-70). -/
def sumRGB (l : List (ℚ × ℚ × ℚ)) : ℚ × ℚ × ℚ :=
  l.foldl (fun a p => (a.1 + p.1, a.2.1 + p.2.1, a.2.2 + p.2.2)) (0, 0, 0)

/-- Componentwise division of an RGB triple by a scalar. -/
def divRGB (p : ℚ × ℚ × ℚ) (n : ℚ) : ℚ × ℚ × ℚ :=
  (p.1 / n, p.2.1 / n, p.2.2 / n)

/-- The atmospheric light `A = atm_sum / num_pixels`
(dcp.py lines 57-73). -/
def compute_atmospheric_light (img : List (ℚ × ℚ × ℚ)) (dark : List ℚ)
    (atmPercentile : ℚ) : ℚ × ℚ × ℚ :=
  let n := numAtmPixels dark.length atmPercentile
  divRGB (sumRGB ((topIndices dark n).map (rgbAt img))) n

/-- Arithmetic mean of a list of RGB values, with the divisor made
explicit (used to state what `compute_atmospheric_light` returns). -/
def meanRGB (l : List (ℚ × ℚ × ℚ)) (n : ℕ) : ℚ × ℚ × ℚ :=
  divRGB (sumRGB l) n

end DCP

/-!
Character-list helpers shared by the embeddings below.  Python strings
that the code splits, parses or formats are modelled as `List Char`.
-/

/-- Python `str.split(sep)` for a one-character separator.  The result is
always nonempty. -/
def splitOnChar (sep : Char) : List Char → List (List Char)
  | [] => [[]]
  | c :: rest =>
    match splitOnChar sep rest with
    | [] => [[c]]
    | h :: t => if c = sep then [] :: h :: t else (c :: h) :: t

/-- Numeric value of an ASCII digit character. -/
def charDigit (c : Char) : ℕ :=
  c.toNat - 48

/-- Value of a nonempty all-digit character list, most significant digit
first. -/
def digitsVal (l : List Char) : ℕ :=
  l.foldl (fun a c => 10 * a + charDigit c) 0

/-- Test that a character list is a nonempty run of ASCII digits. -/
def allDigits (l : List Char) : Bool :=
  !l.isEmpty && l.all Char.isDigit

/-- Python `int()` on a character list: an optional sign followed by a
nonempty digit run (whitespace tolerance is not modelled; the inputs the
claims quantify over carry none).  Returns `none` where Python raises
`ValueError`. -/
def pyInt? (l : List Char) : Option ℤ :=
  if l.headD ' ' = '-' then
    if allDigits l.tail then some (-(digitsVal l.tail : ℤ)) else none
  else if l.headD ' ' = '+' then
    if allDigits l.tail then some (digitsVal l.tail : ℤ) else none
  else if allDigits l then some (digitsVal l : ℤ) else none

/-- Index of the last `'.'` in a file name, when there is one. -/
def lastDotIdx (name : List Char) : Option ℕ :=
  (name.reverse.findIdx? (fun c => c = '.')).map (fun j => name.length - 1 - j)

/-- The `pathlib.PurePath.suffix` of a file name: the part from the last
dot on, and empty when the last dot is absent, leading, or trailing. -/
def pySuffixName (name : List Char) : List Char :=
  match lastDotIdx name with
  | some i => if 0 < i ∧ i < name.length - 1 then name.drop i else []
  | none => []

/-- The `pathlib.PurePath.stem` of a file name: the name with its suffix
removed. -/
def pyStemName (name : List Char) : List Char :=
  match lastDotIdx name with
  | some i => if 0 < i ∧ i < name.length - 1 then name.take i else name
  | none => name

/-- Python `str.lower()`, restricted to the ASCII range (the only
characters the compared file extensions contain). -/
def lowerChars (l : List Char) : List Char :=
  l.map Char.toLower

/-- Python f-string formatting `f"{n:05d}"` for a natural number. -/
def zfill5 (n : ℕ) : List Char :=
  let s := Nat.toDigits 10 n
  List.replicate (5 - s.length) '0' ++ s

namespace Sampler

/-!
Embedding of `custom_dataset/sample.py`, `extract_frames` (lines 4-36).
A video that has been opened successfully is modelled by its reported
frame rate `fps : ℚ` and the number `numFrames` of frames its stream
yields before `cap.read()` reports end of stream.  The embedding returns
the list of saved frames: for each, the 0-based frame index at which it
was saved, the value of the save counter, and the file name written.
-/

/-- One saved frame: its 0-based index in the stream, the value of
`saved_count` when it was written, and the file name used. -/
structure SavedFrame where
  frameIdx : ℕ
  savedIdx : ℕ
  name : List Char
deriving DecidableEq

/-- File name `f"{filename}_frame_{saved_count:05d}.jpg"`
(sample.py line 28). -/
def frameName (filename : List Char) (savedCount : ℕ) : List Char :=
  filename ++ ("_frame_").data ++ zfill5 savedCount ++ (".jpg").data

/-- The frame-reading loop of `extract_frames` (sample.py lines 21-33),
scanning `n` remaining frames with current frame counter `fc` and save
counter `sc`.  Evaluating `frame_count % frame_interval` with a zero
interval raises `ZeroDivisionError` at the first frame. -/
def extractLoop (frameInterval : ℤ) (filename : List Char) :
    ℕ → ℕ → ℕ → PyResult (List SavedFrame)
  | 0, _, _ => .ok []
  | n + 1, fc, sc =>
    if frameInterval = 0 then .err .zeroDivisionError
    else if (fc : ℤ) % frameInterval = 0 then do
      let rest ← extractLoop frameInterval filename n (fc + 1) (sc + 1)
      pure (⟨fc, sc, frameName filename sc⟩ :: rest)
    else extractLoop frameInterval filename n (fc + 1) sc

/-- `extract_frames` (sample.py lines 4-36) on an opened video:
the `fps == 0` fatal check, then
`frame_interval = int(fps * interval_sec)`, then the scan loop. -/
def extract_frames (fps intervalSec : ℚ) (filename : List Char)
    (numFrames : ℕ) : PyResult (List SavedFrame) :=
  if fps = 0 then .err (.runtimeError ("Cannot get FPS for the video."))
  else extractLoop (pyTrunc (fps * intervalSec)) filename numFrames 0 0

end Sampler

namespace PytUtils

/-!
Embedding of `CCNet/utils/pyt_utils.py`.  Checkpoint keys follow the
dotted naming scheme the code manipulates through `k.split('.')` and
`'.'.join(...)`; they are modelled directly as their segment lists.  A
tensor is modelled by its shape together with an opaque payload, which
is all `load_model`'s remapping inspects.
-/

/-- A checkpoint/model key, as its list of dot-separated segments. -/
abbrev Key := List String

/-- A tensor: its shape, and a payload standing for its contents. -/
structure Tensor where
  shape : List ℕ
  val : ℤ
deriving DecidableEq

/-- The model's own parameter/buffer namespace `model.state_dict()`,
as a key-to-shape association list. -/
abbrev ModelState := List (Key × List ℕ)

/-- Shape lookup in the model state (`k in model_state` plus
`model_state[k].shape`). -/
def findShape : ModelState → Key → Option (List ℕ)
  | [], _ => none
  | (k', s) :: rest, k => if k' = k then some s else findShape rest k

/-- The normalization-parameter suffixes of pyt_utils.py lines 83 and 93. -/
def normSuffixes : List String :=
  ["weight", "bias", "running_mean", "running_var", "num_batches_tracked"]

/-- The explicit normalization-layer names of pyt_utils.py line 81. -/
def bnNames : List String :=
  ["bn1", "bn2", "bn3"]

/-- Python `str.isdigit()` for the ASCII segments that occur in model
keys. -/
def pyIsDigit (s : String) : Bool :=
  !s.data.isEmpty && s.data.all Char.isDigit

/-- The rewritten key `'.'.join(parts[:i+1] + ['0'] + parts[i+1:])`
(pyt_utils.py lines 84 and 94). -/
def insertZeroAfter (parts : Key) (i : ℕ) : Key :=
  parts.take (i + 1) ++ ["0"] ++ parts.drop (i + 1)

/-- Pattern 1 of the remapping loop (pyt_utils.py lines 81-83): segment
`i` is `bn1`/`bn2`/`bn3` and is followed by a normalization-parameter
suffix. -/
def pat1Cond (parts : Key) (i : ℕ) : Bool :=
  parts.getD i "" ∈ bnNames && i + 1 < parts.length
    && parts.getD (i + 1) "" ∈ normSuffixes

/-- Pattern 2 of the remapping loop (pyt_utils.py lines 91-93): segment
`i` is purely numeric and is followed by a normalization-parameter
suffix. -/
def pat2Cond (parts : Key) (i : ℕ) : Bool :=
  pyIsDigit (parts.getD i "") && i + 1 < parts.length
    && parts.getD (i + 1) "" ∈ normSuffixes

/-- Shape test `new_key in model_state and model_state[new_key].shape == v.shape`
(pyt_utils.py lines 85 and 95). -/
def keyFits (ms : ModelState) (k : Key) (shape : List ℕ) : Bool :=
  findShape ms k = some shape

/-- The inner `for i, part in enumerate(parts)` of the remapping loop
(pyt_utils.py lines 79-98), over the remaining segment indices: at each
index, pattern 1 is tried and then pattern 2, and the loop breaks at the
first rewritten key that exists in the model with equal shape. -/
def tryRemapGo (ms : ModelState) (shape : List ℕ) (parts : Key) :
    List ℕ → Option Key
  | [] => none
  | i :: rest =>
    if pat1Cond parts i && keyFits ms (insertZeroAfter parts i) shape then
      some (insertZeroAfter parts i)
    else if pat2Cond parts i && keyFits ms (insertZeroAfter parts i) shape then
      some (insertZeroAfter parts i)
    else tryRemapGo ms shape parts rest

/-- The remapping attempt for one checkpoint key that did not match
as-is. -/
def tryRemap (ms : ModelState) (shape : List ℕ) (parts : Key) : Option Key :=
  tryRemapGo ms shape parts (List.range parts.length)

/-- Treatment of a single checkpoint entry by the remapping loop
(pyt_utils.py lines 69-102): an entry whose key exists in the model with
equal shape is kept; otherwise the first shape-matching rewrite is used;
otherwise the original key is kept. -/
def remapEntry (ms : ModelState) (kv : Key × Tensor) : Key × Tensor :=
  if keyFits ms kv.1 kv.2.shape then kv
  else
    match tryRemap ms kv.2.shape kv.1 with
    | some k' => (k', kv.2)
    | none => kv

/-- `OrderedDict` assignment `d[k] = v`: replaces in place when the key
is present, appends otherwise. -/
def odInsert : List (Key × Tensor) → Key × Tensor → List (Key × Tensor)
  | [], kv => [kv]
  | (k', v') :: rest, kv =>
    if k' = kv.1 then (k', kv.2) :: rest else (k', v') :: odInsert rest kv

/-- The whole `remapped_state_dict` construction of pyt_utils.py
lines 68-102. -/
def remapStateDict (ms : ModelState) (sd : List (Key × Tensor)) :
    List (Key × Tensor) :=
  (sd.map (remapEntry ms)).foldl odInsert []

/-- Specification-side description of one applicable rewrite, taken from
the claim: inserting a literal `"0"` segment after position `i`, where
segment `i` is `bn1`/`bn2`/`bn3` or purely numeric, segment `i+1` is a
normalization-parameter suffix, and the rewritten key exists in the
model with equal shape. -/
def RewriteHit (ms : ModelState) (shape : List ℕ) (parts : Key) (i : ℕ) :
    Prop :=
  i + 1 < parts.length
    ∧ (parts.getD i "" ∈ bnNames ∨ pyIsDigit (parts.getD i "") = true)
    ∧ parts.getD (i + 1) "" ∈ normSuffixes
    ∧ findShape ms (insertZeroAfter parts i) = some shape

instance (ms : ModelState) (shape : List ℕ) (parts : Key) (i : ℕ) :
    Decidable (RewriteHit ms shape parts i) := by
  unfold RewriteHit
  infer_instance

/-!
Embedding of `parse_devices` (pyt_utils.py lines 131-155).  The device
specification string is a `List Char`; `torch.cuda.device_count()` is
the parameter `count`.
-/

/-- Python `range(a, b)` on integers, as a list. -/
def intRange (a b : ℤ) : List ℤ :=
  (List.range (b - a).toNat).map (fun j => a + j)

/-- Processing of a single comma-separated token `d` of the device
specification (pyt_utils.py lines 138-150). -/
def processTok (count : ℕ) (d : List Char) : PyResult (List ℤ) :=
  if '-' ∈ d then
    let parts := splitOnChar '-' d
    let sd := parts.getD 0 []
    let ed := parts.getD 1 []
    do
      pyAssert (!sd.isEmpty)
      pyAssert (!ed.isEmpty)
      match pyInt? sd, pyInt? ed with
      | some a, some b => do
        pyAssert (a < b)
        pyAssert (b < (count : ℤ))
        pure (intRange a (b + 1))
      | _, _ => .err .valueError
  else
    match pyInt? d with
    | some n => do
      pyAssert (n < (count : ℤ))
      pure [n]
    | none => .err .valueError

/-- The token loop of `parse_devices` (pyt_utils.py lines 136-150),
accumulating the parsed devices in order. -/
def parseToks (count : ℕ) : List (List Char) → PyResult (List ℤ)
  | [] => .ok []
  | d :: rest => do
    let ds ← processTok count d
    let tail ← parseToks count rest
    pure (ds ++ tail)

/-- `parse_devices` (pyt_utils.py lines 131-155): the trailing-`*` form
returns all device indices; otherwise the string is split on commas and
each token contributes its devices. -/
def parse_devices (count : ℕ) (input : List Char) : PyResult (List ℤ) :=
  if input.getLastD ' ' = '*' then
    .ok ((List.range count).map Int.ofNat)
  else
    parseToks count (splitOnChar ',' input)

/-- A well-formed token of a device specification, for stating the
claim: a plain integer or an integer range. -/
inductive DevTok where
  | num (s : List Char)
  | rng (s1 s2 : List Char)

/-- The character rendering of a device token. -/
def tokStr : DevTok → List Char
  | .num s => s
  | .rng s1 s2 => s1 ++ '-' :: s2

/-- The device specification string denoted by a token list:
the tokens joined by commas. -/
def devString : List DevTok → List Char
  | [] => []
  | [t] => tokStr t
  | t :: ts => tokStr t ++ ',' :: devString ts

/-- The devices a well-formed token denotes. -/
def tokVal : DevTok → List ℤ
  | .num s => [(pyInt? s).getD 0]
  | .rng s1 s2 => intRange ((pyInt? s1).getD 0) (((pyInt? s2).getD 0) + 1)

/-- A token that parses: an integer without a dash, or a range
`a-b` built from two dash-free integer renderings.  Bounds are not yet
constrained. -/
def wfTok (t : DevTok) : Bool :=
  match t with
  | .num s => decide ('-' ∉ s) && (pyInt? s).isSome
  | .rng s1 s2 =>
    decide ('-' ∉ s1) && decide ('-' ∉ s2) && !s1.isEmpty && !s2.isEmpty
      && (pyInt? s1).isSome && (pyInt? s2).isSome

/-- A token every assertion of `parse_devices` accepts: well-formed,
with integers below the device count and ranges `a-b` satisfying
`a < b` and `b < count`. -/
def goodTok (count : ℕ) (t : DevTok) : Bool :=
  wfTok t &&
    match t with
    | .num s => (pyInt? s).getD 0 < (count : ℤ)
    | .rng s1 s2 =>
      (pyInt? s1).getD 0 < (pyInt? s2).getD 0
        && (pyInt? s2).getD 0 < (count : ℤ)

/-- A range token violating an assertion of `parse_devices`: `a < b`
fails, or `b` is not below the device count. -/
def rangeViolation (count : ℕ) (t : DevTok) : Bool :=
  match t with
  | .num _ => false
  | .rng s1 s2 =>
    !((pyInt? s1).getD 0 < (pyInt? s2).getD 0)
      || !((pyInt? s2).getD 0 < (count : ℤ))

/-!
Embedding of `decode_labels`, `decode_predictions` and `inv_preprocess`
(pyt_utils.py lines 184-260).  The module imports (lines 1-14) bind
`os`, `sys`, `time`, `argparse`, `OrderedDict`, `defaultdict`, `torch`,
`model_zoo`, `dist` and `get_logger`; the functions additionally see the
module-level bindings.  Crucially, neither `numpy` (as `np`) nor
`PIL.Image` (as `Image`) is ever imported, so any occurrence of `np.` or
`Image.` raises `NameError` when evaluated.  Name resolution is made
explicit below: each `np.`/`Image.` occurrence in the source is modelled
by a lookup in the module's global namespace at the same program point.
-/

/-- The names bound in the `pyt_utils` module namespace: its imports
(lines 1-14) and its own top-level definitions. -/
def moduleGlobals : List String :=
  ["os", "sys", "time", "argparse", "OrderedDict", "defaultdict",
   "torch", "model_zoo", "dist", "get_logger", "logger", "label_colours",
   "reduce_tensor", "all_reduce_tensor", "load_model", "parse_devices",
   "extant_file", "link_file", "ensure_dir", "_dbg_interactive",
   "decode_labels", "decode_predictions", "inv_preprocess"]

/-- Resolution of a global name at a use site: `NameError` when the
module namespace does not bind it. -/
def resolveGlobal (n : String) : PyResult Unit :=
  if moduleGlobals.contains n then .ok () else .err (.nameError n)

/-- The colour map `label_colours` (pyt_utils.py lines 17-25). -/
def label_colours : List (ℕ × ℕ × ℕ) :=
  [(0, 0, 0),
   (128, 0, 0), (0, 128, 0), (128, 128, 0), (0, 0, 128), (128, 0, 128),
   (0, 128, 128), (128, 128, 128), (64, 0, 0), (192, 0, 0), (64, 128, 0),
   (192, 128, 0), (64, 0, 128), (192, 0, 128), (64, 128, 128), (192, 128, 128),
   (0, 64, 0), (128, 64, 0), (0, 192, 0), (128, 192, 0), (0, 64, 128)]

/-- A batch of 2-D class-index masks, as nested lists `(n, h, w)`. -/
abbrev MaskBatch := List (List (List ℕ))

/-- A batch of RGB images, as nested lists `(n, h, w, 3)`. -/
abbrev RgbBatch := List (List (List (ℕ × ℕ × ℕ)))

/-- The pixel-painting loops of `decode_labels` (pyt_utils.py
lines 199-206): pixels with a class index below `num_classes` receive
their colour-map entry, the rest stay at the black `Image.new` default. -/
def decodeLabelsCore (mask : MaskBatch) (numImages numClasses : ℕ) :
    RgbBatch :=
  (mask.take numImages).map (fun img =>
    img.map (fun row =>
      row.map (fun k =>
        if k < numClasses then label_colours.getD k (0, 0, 0) else (0, 0, 0))))

/-- `decode_labels` (pyt_utils.py lines 184-207): the batch-size
assertion (line 197) runs first, then `np.zeros` (line 198) resolves
`np` and fails, before any painting or `Image.new` use. -/
def decode_labels (mask : MaskBatch) (numImages numClasses : ℕ) :
    PyResult RgbBatch := do
  pyAssert (numImages ≤ mask.length)
  resolveGlobal ("np")
  resolveGlobal ("Image")
  pure (decodeLabelsCore mask numImages numClasses)

/-- A 4-D logit tensor `(n, c, h, w)`, as nested rational lists. -/
abbrev LogitBatch := List (List (List (List ℚ)))

/-- The input of `decode_predictions`: a single logit tensor, or a list
of per-scale logit tensors. -/
inductive Preds where
  | single (t : LogitBatch)
  | multi (ts : List LogitBatch)

/-- NumPy `argmax` over a rational list: the index of the first maximal
element (0 on an empty list). -/
def argmaxIdx (xs : List ℚ) : ℕ :=
  (xs.foldl
    (fun st x =>
      if st.2.2 < x then (st.1 + 1, st.1, x) else (st.1 + 1, st.2.1, st.2.2))
    ((1 : ℕ), (0 : ℕ), xs.getD 0 0)).2.1

/-- `np.argmax(preds, axis=1)` on a 4-D batch: the per-pixel class
index. -/
def argmaxChannel (t : LogitBatch) : MaskBatch :=
  t.map (fun img =>
    let c0 := img.getD 0 []
    (List.range c0.length).map (fun y =>
      (List.range (c0.getD y []).length).map (fun x =>
        argmaxIdx (img.map (fun ch => (ch.getD y []).getD x 0)))))

/-- The statements of the `isinstance(preds, list)` branch of
`decode_predictions` after the failing `np.concatenate` lookup
(pyt_utils.py lines 224-228).  They never execute: were `np` bound, the
concatenation of the 3-D slices `pred[-1]` would later fail to unpack
into `n, h, w` after `argmax(axis=1)` collapses it to 2-D
(a `ValueError`). -/
def deadMultiTail (numImages numClasses : ℕ) : PyResult RgbBatch := do
  let _ := numImages
  let _ := numClasses
  resolveGlobal ("np")
  .err .valueError

/-- `decode_predictions` (pyt_utils.py lines 209-240): the list branch
fails at the `np.concatenate` lookup (line 224); the tensor branch fails
at the `np.argmax` lookup (line 228), both before the batch-size
assertion (line 230). -/
def decode_predictions (preds : Preds) (numImages numClasses : ℕ) :
    PyResult RgbBatch := do
  match preds with
  | .multi _ => deadMultiTail numImages numClasses
  | .single t => do
    resolveGlobal ("np")
    let m := argmaxChannel t
    pyAssert (numImages ≤ m.length)
    resolveGlobal ("np")
    resolveGlobal ("Image")
    pure (decodeLabelsCore m numImages numClasses)

/-- A batch of mean-subtracted channel-first images `(n, c, h, w)`. -/
abbrev ImgBatch := List (List (List (List ℚ)))

/-- The cast `astype(np.uint8)` of an unclipped float: truncation toward
zero followed by the unsigned 8-bit wraparound. -/
def wrapUint8 (q : ℚ) : ℕ :=
  ((pyTrunc q) % 256).toNat

/-- The transposition and mean-addition of `inv_preprocess`
(pyt_utils.py line 259): channel-first to channel-last, adding the
per-channel mean. -/
def invPreprocessCore (imgs : ImgBatch) (numImages : ℕ) (imgMean : List ℚ) :
    RgbBatch :=
  (imgs.take numImages).map (fun img =>
    let c0 := img.getD 0 []
    (List.range c0.length).map (fun y =>
      (List.range (c0.getD y []).length).map (fun x =>
        (wrapUint8 (((img.getD 0 []).getD y []).getD x 0 + imgMean.getD 0 0),
         wrapUint8 (((img.getD 1 []).getD y []).getD x 0 + imgMean.getD 1 0),
         wrapUint8 (((img.getD 2 []).getD y []).getD x 0 + imgMean.getD 2 0)))))

/-- `inv_preprocess` (pyt_utils.py lines 242-260): the batch-size
assertion (line 256) runs first, then `np.zeros` (line 257) resolves
`np` and fails. -/
def inv_preprocess (imgs : ImgBatch) (numImages : ℕ) (imgMean : List ℚ) :
    PyResult RgbBatch := do
  pyAssert (numImages ≤ imgs.length)
  resolveGlobal ("np")
  pure (invPreprocessCore imgs numImages imgMean)

end PytUtils

namespace RunInference

/-!
Embedding of `CCNet/tools/run_inference.py`.  Two parts are relevant to
the checked properties: the per-image output paths of `run_inference`
(lines 409-471) and the label-placement loop of `add_labels_to_image`
(lines 228-364).
-/

/-- A filesystem path, as its list of components; each component is a
`List Char`. -/
abbrev FsPath := List (List Char)

/-- The output file written for the colored mask:
`output_dir / f"{stem}_mask.png"` with `stem = rel_path.stem`
(run_inference.py lines 410-412). -/
def maskPath (outputDir : FsPath) (relPath : FsPath) : FsPath :=
  outputDir ++ [pyStemName (relPath.getLastD []) ++ ("_mask.png").data]

/-- The output file written for the overlay:
`output_dir / f"{stem}_overlay.png"` (run_inference.py line 440). -/
def overlayPath (outputDir : FsPath) (relPath : FsPath) : FsPath :=
  outputDir ++ [pyStemName (relPath.getLastD []) ++ ("_overlay.png").data]

/-- The output file written for the labeled image:
`output_dir / f"{stem}_labeled.png"` (run_inference.py line 470). -/
def labeledPath (outputDir : FsPath) (relPath : FsPath) : FsPath :=
  outputDir ++ [pyStemName (relPath.getLastD []) ++ ("_labeled.png").data]

/-- The list of files `run_inference` writes for one input image, in
write order (run_inference.py lines 409-471): the mask always, the
overlay under `--save-overlay`, the labeled image under
`--save-labeled`. -/
def outputWrites (outputDir : FsPath) (relPath : FsPath)
    (saveOverlay saveLabeled : Bool) : List FsPath :=
  [maskPath outputDir relPath]
    ++ (if saveOverlay then [overlayPath outputDir relPath] else [])
    ++ (if saveLabeled then [labeledPath outputDir relPath] else [])

/-- Output path for the mask as the specification describes it: under
the output directory, mirroring the input image's subdirectory
structure relative to the image root, with filename
`<stem>_mask.<ext>` where `<ext>` is the input image's extension.
This definition follows the specification's words, for comparison with
`maskPath`, which follows the code. -/
def specMaskPath (outputDir : FsPath) (relPath : FsPath) : FsPath :=
  outputDir ++ relPath.dropLast
    ++ [pyStemName (relPath.getLastD []) ++ ("_mask").data
        ++ pySuffixName (relPath.getLastD [])]

/-- Squared Euclidean distance between two integer pixel positions. -/
def distSq (p q : ℤ × ℤ) : ℤ :=
  (p.1 - q.1) ^ 2 + (p.2 - q.2) ^ 2

/-- The minimum label distance
`min_distance = max(60, int(80 * (w / 1024.0)))` (run_inference.py
line 321).  For a pixel width `w`, the float expression
`80 * (w / 1024.0)` is computed exactly in double precision (it equals
`5 * w / 64` with numerator well below `2^53`), so `int()` of it is
exactly the floor `80 * w / 1024` in natural division. -/
def minLabelDistance (w : ℕ) : ℕ :=
  max 60 (80 * w / 1024)

/-- The proximity rejection test of run_inference.py lines 320-326: the
candidate is too close when some already-placed label is at distance
below `min_distance`.  The float comparison
`np.sqrt(dsq) < min_distance` on the exact integer squares involved is
equivalent to `dsq < min_distance ^ 2`, which is the form used here. -/
def tooClose (minDist : ℕ) (c : ℤ × ℤ) (placed : List (ℤ × ℤ)) : Bool :=
  placed.any (fun q => distSq c q < (minDist : ℤ) ^ 2)

/-- The label-placement loop of `add_labels_to_image` (run_inference.py
lines 270-362) over the stream of candidate centroids it visits, in
visit order (classes in ascending class-index order, components within a
class largest-first): a candidate too close to an already-placed label
is skipped, any other is appended to `label_positions`. -/
def placeLabelsGo (minDist : ℕ) :
    List (ℤ × ℤ) → List (ℤ × ℤ) → List (ℤ × ℤ)
  | [], placed => placed
  | c :: rest, placed =>
    if tooClose minDist c placed then placeLabelsGo minDist rest placed
    else placeLabelsGo minDist rest (placed ++ [c])

/-- The final `label_positions` list produced by `add_labels_to_image`
for a given candidate stream. -/
def placeLabels (minDist : ℕ) (cands : List (ℤ × ℤ)) : List (ℤ × ℤ) :=
  placeLabelsGo minDist cands []

/-- The minimum label distance as the specification states it:
`max(60, 80 * width / 1024)` in exact (unfloored) arithmetic.  This
definition follows the specification's words, for comparison with
`minLabelDistance`, which follows the code. -/
def specMinLabelDistance (w : ℕ) : ℚ :=
  max 60 (80 * (w : ℚ) / 1024)

end RunInference

namespace RegisterDataset

/-!
Embedding of `FasterRCNN/register_custom_dataset.py`,
`register_image_folder_dataset` (lines 37-106) and the deferred
`get_image_dicts` callback (lines 66-84).  A directory tree is modelled
as the list of entries `image_dir.rglob("*")` yields: each entry carries
its file name, whether it is a regular file, and — for the deferred
scan — the decode outcome `cv2.imread` would produce (`none` for an
unreadable image, otherwise the image's height and width).
-/

/-- One entry of the scanned directory tree. -/
structure FsEntry where
  name : List Char
  isFile : Bool
  decodable : Option (ℕ × ℕ)
deriving DecidableEq

/-- The supported image extensions (register_custom_dataset.py
line 55). -/
def valid_exts : List (List Char) :=
  [(".jpg").data, (".jpeg").data, (".png").data,
   (".bmp").data, (".tif").data, (".tiff").data]

/-- The filter of register_custom_dataset.py lines 58-61:
`p.suffix.lower() in valid_exts and p.is_file()`. -/
def isImageFile (e : FsEntry) : Bool :=
  valid_exts.contains (lowerChars (pySuffixName e.name)) && e.isFile

/-- Lexicographic comparison of character lists, for `sorted(...)`. -/
def lexLe : List Char → List Char → Bool
  | [], _ => true
  | _ :: _, [] => false
  | a :: as, b :: bs => if a = b then lexLe as bs else a < b

/-- One Detectron2 record of `get_image_dicts`
(register_custom_dataset.py lines 77-82). -/
structure DatasetRecord where
  file_name : List Char
  image_id : List Char
  height : ℕ
  width : ℕ
deriving DecidableEq

/-- `register_image_folder_dataset` (lines 37-64 and 86) up to the
catalog registration: a missing directory or an empty extension-filtered
file list raises `ValueError`; otherwise the sorted file list is
captured by the deferred callback and registration succeeds.  Only
extensions are examined here; no file is opened. -/
def register_image_folder_dataset (dirExists : Bool)
    (entries : List FsEntry) : PyResult (List FsEntry) :=
  if !dirExists then .err .valueError
  else
    let image_files :=
      List.insertionSort (fun a b => lexLe a.name b.name)
        (entries.filter isImageFile)
    if image_files.isEmpty then .err .valueError
    else .ok image_files

/-- The deferred scan `get_image_dicts` (register_custom_dataset.py
lines 66-84), run when the registered dataset is materialized: each
captured file is read, unreadable images are skipped silently, readable
ones contribute a record with path, stem-derived id, and dimensions. -/
def get_image_dicts (files : List FsEntry) : List DatasetRecord :=
  files.filterMap (fun e =>
    e.decodable.map (fun hw => ⟨e.name, pyStemName e.name, hw.1, hw.2⟩))

end RegisterDataset

/-!
Theorems.  Each claim of the specification gets one theorem below,
preceded by supporting lemmas.
-/

theorem pyTrunc_eq_floor (q : ℚ) (hq : 0 ≤ q) : pyTrunc q = ⌊q⌋ := by
  rw [pyTrunc, Rat.floor_def, Int.tdiv_eq_ediv (Rat.num_nonneg.mpr hq) (by positivity)]

theorem pyTrunc_natCast (k : ℕ) : pyTrunc (k : ℚ) = k := by
  rw [pyTrunc_eq_floor _ (by positivity), Int.floor_natCast]

theorem fusePixel_one (c d : ℕ) (hc : c ≤ 255) : Defog.fusePixel 1 c d = c := by
  unfold Defog.fusePixel toUint8 clip255
  have h1 : (1 : ℚ) * c + (1 - 1) * d = (c : ℚ) := by ring
  rw [h1]
  have hmin : min (255 : ℚ) (c : ℚ) = (c : ℚ) := by
    apply min_eq_right
    exact_mod_cast hc
  have hmax : max (0 : ℚ) (c : ℚ) = (c : ℚ) := max_eq_right (by positivity)
  rw [hmin, hmax, Int.floor_natCast, Int.toNat_natCast]

theorem fusePixel_zero (c d : ℕ) (hd : d ≤ 255) : Defog.fusePixel 0 c d = d := by
  unfold Defog.fusePixel toUint8 clip255
  have h1 : (0 : ℚ) * c + (1 - 0) * d = (d : ℚ) := by ring
  rw [h1]
  have hmin : min (255 : ℚ) (d : ℚ) = (d : ℚ) := by
    apply min_eq_right
    exact_mod_cast hd
  have hmax : max (0 : ℚ) (d : ℚ) = (d : ℚ) := max_eq_right (by positivity)
  rw [hmin, hmax, Int.floor_natCast, Int.toNat_natCast]

/-- Claim C5: in the Wavelet/CLAHE fusion dehazer, `fusionWeight = 1.0`
makes the fused value channel equal the CLAHE-only result (the wavelet
branch contributes nothing), and `fusionWeight = 0.0` makes it equal the
wavelet-only result, for every pair of equally shaped 8-bit branch
outputs. -/
theorem c5_fusion_weight_extremes (vClahe vDwt : List ℕ)
    (hlen : vClahe.length = vDwt.length)
    (hC : ∀ x ∈ vClahe, x ≤ 255) (hD : ∀ x ∈ vDwt, x ≤ 255) :
    Defog.fuseValueChannel 1 vClahe vDwt = vClahe ∧
    Defog.fuseValueChannel 0 vClahe vDwt = vDwt := by
  induction vClahe generalizing vDwt with
  | nil =>
    cases vDwt with
    | nil => exact ⟨rfl, rfl⟩
    | cons d ds => simp at hlen
  | cons c cs ih =>
    cases vDwt with
    | nil => simp at hlen
    | cons d ds =>
      have hlen' : cs.length = ds.length := by
        simpa using hlen
      have hC' : ∀ x ∈ cs, x ≤ 255 := fun x hx => hC x (List.mem_cons_of_mem c hx)
      have hD' : ∀ x ∈ ds, x ≤ 255 := fun x hx => hD x (List.mem_cons_of_mem d hx)
      obtain ⟨ih1, ih2⟩ := ih ds hlen' hC' hD'
      constructor
      · show Defog.fusePixel 1 c d :: Defog.fuseValueChannel 1 cs ds = c :: cs
        rw [fusePixel_one c d (hC c (List.mem_cons_self c cs)), ih1]
      · show Defog.fusePixel 0 c d :: Defog.fuseValueChannel 0 cs ds = d :: ds
        rw [fusePixel_zero c d (hD d (List.mem_cons_self d ds)), ih2]

/-- Witness for C5 at a concrete pair of branch outputs. -/
theorem c5_fusion_weight_extremes_witness :
    ([10, 200, 0] : List ℕ).length = ([255, 3, 128] : List ℕ).length ∧
    Defog.fuseValueChannel 1 [10, 200, 0] [255, 3, 128] = [10, 200, 0] ∧
    Defog.fuseValueChannel 0 [10, 200, 0] [255, 3, 128] = [255, 3, 128] := by
  refine ⟨by decide, ?_⟩
  exact c5_fusion_weight_extremes [10, 200, 0] [255, 3, 128] (by decide)
    (by decide) (by decide)

/-- Claim C7: in the Dark Channel Prior dehazer, the atmospheric light
is the arithmetic mean of the original per-pixel RGB values of the
`max(floor(imagePixelCount * atmPercentile), 1)` pixels with the highest
dark-channel values: there is a set of pixel indices of exactly that
size, every pixel outside it having a dark-channel value no higher than
any pixel inside it, whose RGB mean is the returned `A`. -/
theorem c7_atmospheric_light (img : List (ℚ × ℚ × ℚ)) (dark : List ℚ)
    (p : ℚ) (hlen : img.length = dark.length)
    (hn : DCP.numAtmPixels dark.length p ≤ dark.length) :
    ∃ sel : List ℕ, sel.Nodup ∧ (∀ i ∈ sel, i < dark.length) ∧
      sel.length = DCP.numAtmPixels dark.length p ∧
      (∀ i ∈ sel, ∀ j, j < dark.length → j ∉ sel →
        DCP.darkAt dark j ≤ DCP.darkAt dark i) ∧
      DCP.compute_atmospheric_light img dark p =
        DCP.meanRGB (sel.map (DCP.rgbAt img)) (DCP.numAtmPixels dark.length p) := by
  classical
  set m := dark.length with hm
  set n := DCP.numAtmPixels dark.length p with hnn
  set r : ℕ → ℕ → Prop := fun i j => DCP.darkAt dark i ≤ DCP.darkAt dark j with hr
  haveI : IsTotal ℕ r := ⟨fun a b => le_total _ _⟩
  haveI : IsTrans ℕ r := ⟨fun a b c hab hbc => le_trans hab hbc⟩
  have hperm : List.Perm (DCP.argsortDark dark) (List.range m) :=
    List.perm_insertionSort r (List.range m)
  have hsorted : (DCP.argsortDark dark).Sorted r :=
    List.sorted_insertionSort r (List.range m)
  have hlen2 : (DCP.argsortDark dark).length = m := by
    rw [hperm.length_eq, List.length_range]
  refine ⟨DCP.topIndices dark n, ?_, ?_, ?_, ?_, rfl⟩
  · exact (List.drop_sublist _ _).nodup (hperm.nodup_iff.mpr (List.nodup_range m))
  · intro i hi
    have : i ∈ DCP.argsortDark dark :=
      (List.drop_sublist _ _).subset hi
    have : i ∈ List.range m := hperm.subset this
    exact List.mem_range.mp this
  · show ((DCP.argsortDark dark).drop (m - n)).length = n
    rw [List.length_drop, hlen2]
    omega
  · intro i hi j hjm hjns
    have hj1 : j ∈ DCP.argsortDark dark :=
      hperm.mem_iff.mpr (List.mem_range.mpr hjm)
    have hj2 : j ∈ (DCP.argsortDark dark).take (m - n) := by
      have hj1' : j ∈ (DCP.argsortDark dark).take (m - n)
          ++ (DCP.argsortDark dark).drop (m - n) := by
        rw [List.take_append_drop]
        exact hj1
      rcases List.mem_append.mp hj1' with h | h
      · exact h
      · exact absurd h hjns
    exact hsorted.rel_of_mem_take_of_mem_drop hj2 hi

/-- Witness for C7 at a concrete two-pixel image with `atmPercentile = 1/2`. -/
theorem c7_atmospheric_light_witness :
    ([(1, 1, 1), (2, 2, 2)] : List (ℚ × ℚ × ℚ)).length = ([0, 1] : List ℚ).length ∧
    DCP.numAtmPixels ([0, 1] : List ℚ).length (1 / 2) ≤ ([0, 1] : List ℚ).length ∧
    (∃ sel : List ℕ, sel.Nodup ∧ (∀ i ∈ sel, i < ([0, 1] : List ℚ).length) ∧
      sel.length = DCP.numAtmPixels ([0, 1] : List ℚ).length (1 / 2) ∧
      (∀ i ∈ sel, ∀ j, j < ([0, 1] : List ℚ).length → j ∉ sel →
        DCP.darkAt [0, 1] j ≤ DCP.darkAt [0, 1] i) ∧
      DCP.compute_atmospheric_light [(1, 1, 1), (2, 2, 2)] [0, 1] (1 / 2) =
        DCP.meanRGB (sel.map (DCP.rgbAt [(1, 1, 1), (2, 2, 2)]))
          (DCP.numAtmPixels ([0, 1] : List ℚ).length (1 / 2))) := by
  have hn : DCP.numAtmPixels ([0, 1] : List ℚ).length (1 / 2) ≤ ([0, 1] : List ℚ).length := by
    unfold DCP.numAtmPixels
    norm_num
  exact ⟨rfl, hn, c7_atmospheric_light [(1, 1, 1), (2, 2, 2)] [0, 1] (1 / 2) rfl hn⟩

theorem pyTrunc_eq_zero (q : ℚ) (h0 : 0 ≤ q) (h1 : q < 1) : pyTrunc q = 0 := by
  rw [pyTrunc_eq_floor q h0]
  exact Int.floor_eq_zero_iff.mpr ⟨h0, h1⟩

/-- Claim C9: for every opened video reporting `fps > 0` but with
`fps * intervalSeconds < 1`, the computed integer frame interval is 0
and `extract_frames` raises an uncaught modulo-by-zero error at the
first frame, saving nothing; only the `fps == 0` case is caught by the
explicit fatal check. -/
theorem c9_zero_interval_crash (fps intervalSec : ℚ) (filename : List Char)
    (numFrames : ℕ) (hfps : 0 < fps) (hint : 0 ≤ intervalSec)
    (hlt : fps * intervalSec < 1) (hframes : 1 ≤ numFrames) :
    pyTrunc (fps * intervalSec) = 0 ∧
    Sampler.extract_frames fps intervalSec filename numFrames =
      .err .zeroDivisionError := by
  have h0 : (0 : ℚ) ≤ fps * intervalSec := mul_nonneg hfps.le hint
  have hz : pyTrunc (fps * intervalSec) = 0 := pyTrunc_eq_zero _ h0 hlt
  refine ⟨hz, ?_⟩
  rw [Sampler.extract_frames, if_neg (ne_of_gt hfps), hz]
  obtain ⟨n, rfl⟩ : ∃ n, numFrames = n + 1 :=
    ⟨numFrames - 1, by omega⟩
  rw [Sampler.extractLoop, if_pos rfl]

/-- Witness for C9 at `fps = 1/10`, `intervalSeconds = 5`, one frame. -/
theorem c9_zero_interval_crash_witness :
    (0 : ℚ) < 1 / 10 ∧ (0 : ℚ) ≤ 5 ∧ (1 / 10 : ℚ) * 5 < 1 ∧ (1 : ℕ) ≤ 1 ∧
    pyTrunc ((1 / 10 : ℚ) * 5) = 0 ∧
    Sampler.extract_frames (1 / 10) 5 [] 1 = .err .zeroDivisionError := by
  refine ⟨by norm_num, by norm_num, by norm_num, le_refl 1, ?_⟩
  exact c9_zero_interval_crash (1 / 10) 5 [] 1 (by norm_num) (by norm_num)
    (by norm_num) (le_refl 1)

theorem extractLoop_spec (k : ℕ) (hk : 1 ≤ k) (fn : List Char) :
    ∀ n fc sc : ℕ, ∃ r, Sampler.extractLoop (k : ℤ) fn n fc sc = .ok r ∧
      r.map Sampler.SavedFrame.frameIdx =
        (List.range' fc n).filter (fun i => decide (i % k = 0)) ∧
      r.map Sampler.SavedFrame.savedIdx = List.range' sc r.length ∧
      ∀ f ∈ r, f.name = Sampler.frameName fn f.savedIdx := by
  intro n
  induction n with
  | zero =>
    intro fc sc
    exact ⟨[], rfl, rfl, rfl, by simp⟩
  | succ n ih =>
    intro fc sc
    have hkz : (k : ℤ) ≠ 0 := by
      have : (0 : ℕ) < k := hk
      exact_mod_cast Nat.pos_iff_ne_zero.mp this
    by_cases hmod : fc % k = 0
    · have hmodZ : (fc : ℤ) % (k : ℤ) = 0 := by
        exact_mod_cast hmod
      obtain ⟨rest, hrest, h1, h2, h3⟩ := ih (fc + 1) (sc + 1)
      refine ⟨⟨fc, sc, Sampler.frameName fn sc⟩ :: rest, ?_, ?_, ?_, ?_⟩
      · simp only [Sampler.extractLoop]
        rw [if_neg hkz, if_pos hmodZ, hrest]
        rfl
      · rw [List.range'_succ, List.filter_cons]
        simp only [List.map_cons, h1]
        simp [hmod]
      · simp only [List.map_cons, List.length_cons, h2, List.range'_succ]
      · intro f hf
        rcases List.mem_cons.mp hf with rfl | hf'
        · rfl
        · exact h3 f hf'
    · have hmodZ : ¬ ((fc : ℤ) % (k : ℤ) = 0) := by
        intro h
        exact hmod (by exact_mod_cast h)
      obtain ⟨rest, hrest, h1, h2, h3⟩ := ih (fc + 1) sc
      refine ⟨rest, ?_, ?_, h2, h3⟩
      · simp only [Sampler.extractLoop]
        rw [if_neg hkz, if_neg hmodZ, hrest]
      · rw [List.range'_succ, List.filter_cons]
        simp only [hmod, decide_eq_true_eq, if_false]
        simpa [hmod] using h1

theorem filter_multiples_block (k m : ℕ) (hk : 1 ≤ k) :
    (List.range' (k * m) k).filter (fun i => decide (i % k = 0)) = [k * m] := by
  obtain ⟨k', rfl⟩ : ∃ k', k = k' + 1 := ⟨k - 1, by omega⟩
  rw [List.range'_succ, List.filter_cons]
  have h0 : (k' + 1) * m % (k' + 1) = 0 := Nat.mul_mod_right (k' + 1) m
  have htail : (List.range' ((k' + 1) * m + 1) k').filter
      (fun i => decide (i % (k' + 1) = 0)) = [] := by
    rw [List.filter_eq_nil_iff]
    intro a ha
    rw [List.mem_range'_1] at ha
    obtain ⟨ha1, ha2⟩ := ha
    have hj : a = (k' + 1) * m + (a - (k' + 1) * m) := by omega
    simp only [decide_eq_true_eq]
    intro hcontra
    rw [hj, Nat.mul_add_mod] at hcontra
    have hlt : a - (k' + 1) * m < k' + 1 := by omega
    rw [Nat.mod_eq_of_lt hlt] at hcontra
    omega
  simp [h0, htail]

theorem filter_range_three_multiples (k : ℕ) (hk : 1 ≤ k) :
    (List.range (3 * k)).filter (fun i => decide (i % k = 0)) = [0, k, 2 * k] := by
  have hsplit : List.range (3 * k) =
      List.range' (k * 0) k ++ List.range' (k * 1) k ++ List.range' (k * 2) k := by
    have h1 := List.range'_append 0 k k 1
    have h2 := List.range'_append 0 (k + k) k 1
    simp only [one_mul, Nat.zero_add] at h1 h2
    rw [List.range_eq_range']
    rw [show 3 * k = k + (k + k) by ring, ← h2, ← h1]
    congr 1 <;> [skip; ring_nf] <;> congr 1 <;> ring
  rw [hsplit, List.filter_append, List.filter_append,
    filter_multiples_block k 0 hk, filter_multiples_block k 1 hk,
    filter_multiples_block k 2 hk]
  simp [Nat.mul_comm]

/-- Claim C4 (amended): for every opened video with `fps > 0` whose
computed integer frame interval `floor(fps * intervalSeconds)` is a
positive integer `k`, `extract_frames` saves exactly the frames whose
0-based index is a multiple of `k`, with a zero-padded save counter
that increments only on save; when `fps * intervalSeconds` equals `k`
exactly, a video of exactly `3 * k` frames yields exactly 3 saved
frames, at frame indices `0`, `k` and `2 * k`. -/
theorem c4_frame_sampling (fps intervalSec : ℚ) (fn : List Char) (k n : ℕ)
    (hk : 1 ≤ k) (hfi : pyTrunc (fps * intervalSec) = (k : ℤ)) :
    ∃ r, Sampler.extract_frames fps intervalSec fn n = .ok r ∧
      r.map Sampler.SavedFrame.frameIdx =
        (List.range n).filter (fun i => decide (i % k = 0)) ∧
      r.map Sampler.SavedFrame.savedIdx = List.range r.length ∧
      (∀ f ∈ r, f.name = Sampler.frameName fn f.savedIdx) ∧
      (fps * intervalSec = (k : ℚ) → n = 3 * k →
        r.map Sampler.SavedFrame.frameIdx = [0, k, 2 * k] ∧ r.length = 3) := by
  have hfps : fps ≠ 0 := by
    intro h
    rw [h, zero_mul] at hfi
    have h0 : pyTrunc 0 = (0 : ℤ) := by
      have := pyTrunc_natCast 0
      simpa using this
    rw [h0] at hfi
    have : k = 0 := by exact_mod_cast hfi.symm
    omega
  obtain ⟨r, hr, h1, h2, h3⟩ := extractLoop_spec k hk fn n 0 0
  have h1' : r.map Sampler.SavedFrame.frameIdx =
      (List.range n).filter (fun i => decide (i % k = 0)) := by
    rw [List.range_eq_range']
    exact h1
  refine ⟨r, ?_, h1', ?_, h3, ?_⟩
  · rw [Sampler.extract_frames, if_neg hfps, hfi]
    exact hr
  · rw [List.range_eq_range']
    exact h2
  · intro _ h3k
    subst h3k
    have hmap : r.map Sampler.SavedFrame.frameIdx = [0, k, 2 * k] := by
      rw [h1', filter_range_three_multiples k hk]
    refine ⟨hmap, ?_⟩
    have := congrArg List.length hmap
    simpa using this

/-- Counterexample to claim C4 as stated.  First, a video that opens
with `fps = 1/2 > 0` crashes with `ZeroDivisionError` instead of saving
frame 0 (whose index is a multiple of the computed `frameInterval = 0`).
Second, with `fps = 7/3` and one-second intervals, a video of exactly
`fps * intervalSeconds * 3 = 7` frames yields 4 saved frames, not 3. -/
theorem c4_counterexample :
    (0 : ℚ) < 1 / 2 ∧
    Sampler.extract_frames (1 / 2) 1 [] 1 = .err .zeroDivisionError ∧
    ((7 : ℕ) : ℚ) = (7 / 3 : ℚ) * 1 * 3 ∧
    (Sampler.extract_frames (7 / 3) 1 [] 7).okLength = 4 := by
  refine ⟨by norm_num, ?_, by norm_num, ?_⟩
  · have hz : pyTrunc ((1 / 2 : ℚ) * 1) = 0 := by
      rw [mul_one]
      exact pyTrunc_eq_zero _ (by norm_num) (by norm_num)
    rw [Sampler.extract_frames, if_neg (by norm_num), hz]
    simp [Sampler.extractLoop]
  · have htr : pyTrunc ((7 / 3 : ℚ) * 1) = 2 := by
      rw [mul_one, pyTrunc_eq_floor _ (by norm_num)]
      norm_num
    rw [Sampler.extract_frames, if_neg (by norm_num), htr]
    decide

/-- Witness for the amended C4, first at the non-integral product
`fps = 5/2` with one-second intervals (`floor(5/2) = 2`, 5 frames),
then at the exact product `fps = 2` with a video of `6 = 3 * 2`
frames. -/
theorem c4_frame_sampling_witness :
    (1 : ℕ) ≤ 2 ∧ pyTrunc ((5 / 2 : ℚ) * 1) = ((2 : ℕ) : ℤ) ∧
    (∃ r, Sampler.extract_frames (5 / 2) 1 [] 5 = .ok r ∧
      r.map Sampler.SavedFrame.frameIdx =
        (List.range 5).filter (fun i => decide (i % 2 = 0)) ∧
      r.map Sampler.SavedFrame.savedIdx = List.range r.length ∧
      (∀ f ∈ r, f.name = Sampler.frameName [] f.savedIdx) ∧
      ((5 / 2 : ℚ) * 1 = ((2 : ℕ) : ℚ) → 5 = 3 * 2 →
        r.map Sampler.SavedFrame.frameIdx = [0, 2, 2 * 2] ∧ r.length = 3)) ∧
    pyTrunc ((2 : ℚ) * 1) = ((2 : ℕ) : ℤ) ∧
    (∃ r, Sampler.extract_frames 2 1 [] 6 = .ok r ∧
      r.map Sampler.SavedFrame.frameIdx =
        (List.range 6).filter (fun i => decide (i % 2 = 0)) ∧
      r.map Sampler.SavedFrame.savedIdx = List.range r.length ∧
      (∀ f ∈ r, f.name = Sampler.frameName [] f.savedIdx) ∧
      ((2 : ℚ) * 1 = ((2 : ℕ) : ℚ) → 6 = 3 * 2 →
        r.map Sampler.SavedFrame.frameIdx = [0, 2, 2 * 2] ∧ r.length = 3)) := by
  have hfi1 : pyTrunc ((5 / 2 : ℚ) * 1) = ((2 : ℕ) : ℤ) := by
    rw [mul_one, pyTrunc_eq_floor _ (by norm_num)]
    norm_num
  have hfi2 : pyTrunc ((2 : ℚ) * 1) = ((2 : ℕ) : ℤ) := by
    rw [mul_one, pyTrunc_eq_floor _ (by norm_num)]
    norm_num
  exact ⟨by norm_num, hfi1,
    c4_frame_sampling (5 / 2) 1 [] 2 5 (by norm_num) hfi1, hfi2,
    c4_frame_sampling 2 1 [] 2 6 (by norm_num) hfi2⟩

theorem distSq_comm (p q : ℤ × ℤ) :
    RunInference.distSq p q = RunInference.distSq q p := by
  unfold RunInference.distSq
  ring

theorem placeLabelsGo_pairwise (minDist : ℕ) :
    ∀ (cands placed : List (ℤ × ℤ)),
      placed.Pairwise
        (fun p q => ((minDist : ℤ)) ^ 2 ≤ RunInference.distSq p q) →
      (RunInference.placeLabelsGo minDist cands placed).Pairwise
        (fun p q => ((minDist : ℤ)) ^ 2 ≤ RunInference.distSq p q) := by
  intro cands
  induction cands with
  | nil => intro placed h; exact h
  | cons c rest ih =>
    intro placed h
    by_cases hc : RunInference.tooClose minDist c placed = true
    · show (RunInference.placeLabelsGo minDist (c :: rest) placed).Pairwise _
      rw [RunInference.placeLabelsGo, if_pos hc]
      exact ih placed h
    · show (RunInference.placeLabelsGo minDist (c :: rest) placed).Pairwise _
      rw [RunInference.placeLabelsGo, if_neg hc]
      apply ih
      rw [List.pairwise_append]
      refine ⟨h, List.pairwise_singleton _ c, ?_⟩
      intro a ha b hb
      rw [List.mem_singleton] at hb
      rw [hb]
      have hfar : ¬ RunInference.distSq c a < ((minDist : ℤ)) ^ 2 := by
        intro hlt
        apply hc
        unfold RunInference.tooClose
        rw [List.any_eq_true]
        exact ⟨a, ha, by simpa using hlt⟩
      rw [distSq_comm a c]
      omega

/-- Claim C6 (amended): every pair of label positions placed by
`add_labels_to_image` is at Euclidean distance at least
`max(60, floor(80 * width / 1024))` pixels — the code's integer
threshold `max(60, int(80 * (w / 1024.0)))` — whatever candidate
centroids the mask's connected components produce and in whatever
order they are visited (classes ascending, components largest-first). -/
theorem c6_label_min_distance (w : ℕ) (cands : List (ℤ × ℤ)) :
    (RunInference.placeLabels (RunInference.minLabelDistance w) cands).Pairwise
      (fun p q => ((RunInference.minLabelDistance w : ℤ)) ^ 2 ≤
        RunInference.distSq p q) :=
  placeLabelsGo_pairwise (RunInference.minLabelDistance w) cands []
    List.Pairwise.nil

/-- Counterexample to claim C6 as stated, with the unfloored threshold
`max(60, 80 * width / 1024)`: at width 1000 the code's threshold is
`max(60, int(78.125)) = 78`, so the candidate centroids `(100, 100)` and
`(178, 101)` (squared distance `6085 = 78^2 + 1`) are both placed, yet
their Euclidean distance `sqrt(6085) ≈ 78.006` is below the claimed
minimum `78.125` (equivalently, `6085 < 78.125^2`). -/
theorem c6_counterexample :
    RunInference.placeLabels (RunInference.minLabelDistance 1000)
      [(100, 100), (178, 101)] = [(100, 100), (178, 101)] ∧
    RunInference.distSq (100, 100) (178, 101) = 6085 ∧
    ((6085 : ℚ)) < (RunInference.specMinLabelDistance 1000) ^ 2 := by
  refine ⟨by decide, by decide, ?_⟩
  have : RunInference.specMinLabelDistance 1000 = 625 / 8 := by
    unfold RunInference.specMinLabelDistance
    rw [max_eq_right (by norm_num)]
    norm_num
  rw [this]
  norm_num

/-- Claim C1 (amended): for every processed image, `run_inference`
writes the mask, overlay and labeled outputs directly under the output
directory — flattening the input's subdirectory structure — with
filenames `<stem>_mask.png`, `<stem>_overlay.png`, `<stem>_labeled.png`,
where `<stem>` is the stem of the input's final path component and the
extension is always `.png` regardless of the input's extension. -/
theorem c1_output_paths (outputDir relPath : RunInference.FsPath)
    (saveOverlay saveLabeled : Bool) :
    RunInference.outputWrites outputDir relPath saveOverlay saveLabeled =
      ([pyStemName (relPath.getLastD []) ++ ("_mask.png").data]
        ++ (if saveOverlay then
              [pyStemName (relPath.getLastD []) ++ ("_overlay.png").data]
            else [])
        ++ (if saveLabeled then
              [pyStemName (relPath.getLastD []) ++ ("_labeled.png").data]
            else [])).map (fun nm => outputDir ++ [nm]) ∧
    ∀ p ∈ RunInference.outputWrites outputDir relPath saveOverlay saveLabeled,
      p.take outputDir.length = outputDir ∧
      p.length = outputDir.length + 1 := by
  have heq : RunInference.outputWrites outputDir relPath saveOverlay saveLabeled =
      ([pyStemName (relPath.getLastD []) ++ ("_mask.png").data]
        ++ (if saveOverlay then
              [pyStemName (relPath.getLastD []) ++ ("_overlay.png").data]
            else [])
        ++ (if saveLabeled then
              [pyStemName (relPath.getLastD []) ++ ("_labeled.png").data]
            else [])).map (fun nm => outputDir ++ [nm]) := by
    unfold RunInference.outputWrites RunInference.maskPath
      RunInference.overlayPath RunInference.labeledPath
    cases saveOverlay <;> cases saveLabeled <;> simp
  refine ⟨heq, ?_⟩
  intro p hp
  rw [heq] at hp
  obtain ⟨nm, hnm, rfl⟩ := List.mem_map.mp hp
  exact ⟨List.take_left outputDir [nm], by simp⟩

/-- Counterexample to claim C1 as stated: for the input image
`sub/img.jpg` relative to the image root and output directory
`outputs`, the specification's mirrored path `outputs/sub/img_mask.jpg`
is not among the files written; the code writes the flattened
`outputs/img_mask.png` instead. -/
theorem c1_counterexample :
    RunInference.specMaskPath [("outputs").data]
        [("sub").data, ("img.jpg").data] ∉
      RunInference.outputWrites [("outputs").data]
        [("sub").data, ("img.jpg").data] true true ∧
    RunInference.maskPath [("outputs").data] [("sub").data, ("img.jpg").data]
      ≠ RunInference.specMaskPath [("outputs").data]
        [("sub").data, ("img.jpg").data] := by
  constructor
  · decide
  · decide

/-- Claim C10: `register_image_folder_dataset` validates only file
extensions at registration time: for every scanned directory containing
at least one entry with a valid image extension, registration succeeds
— even if no entry can be decoded — and materializing the registered
dataset later yields zero records when every captured image is
unreadable, each being silently skipped by the deferred scan. -/
theorem c10_registration_defers_decoding (entries : List RegisterDataset.FsEntry)
    (hex : ∃ e ∈ entries, RegisterDataset.isImageFile e = true) :
    ∃ files, RegisterDataset.register_image_folder_dataset true entries =
        .ok files ∧
      (∀ e ∈ files, e ∈ entries) ∧
      ((∀ e ∈ entries, e.decodable = none) →
        RegisterDataset.get_image_dicts files = []) := by
  classical
  obtain ⟨e0, he0, himg⟩ := hex
  unfold RegisterDataset.register_image_folder_dataset
  rw [if_neg (by simp)]
  set flt := entries.filter RegisterDataset.isImageFile with hflt
  set srt := List.insertionSort
    (fun a b => RegisterDataset.lexLe a.name b.name) flt with hsrt
  have hperm : List.Perm srt flt := List.perm_insertionSort _ flt
  have hmem0 : e0 ∈ flt := List.mem_filter.mpr ⟨he0, himg⟩
  have hne : srt.isEmpty = false := by
    rcases hsrtempty : srt.isEmpty with _ | _
    · rfl
    · exfalso
      have : srt = [] := List.isEmpty_iff.mp hsrtempty
      have : flt = [] := by
        have hl := hperm.length_eq
        rw [this] at hl
        exact List.length_eq_zero.mp hl.symm
      rw [this] at hmem0
      exact absurd hmem0 (List.not_mem_nil e0)
  rw [if_neg (by rw [hne]; simp)]
  refine ⟨srt, rfl, ?_, ?_⟩
  · intro e he
    have : e ∈ flt := hperm.subset he
    exact (List.mem_filter.mp this).1
  · intro hnone
    unfold RegisterDataset.get_image_dicts
    rw [List.filterMap_eq_nil_iff]
    intro e he
    have : e ∈ flt := hperm.subset he
    have : e ∈ entries := (List.mem_filter.mp this).1
    rw [hnone e this]
    rfl

/-- Witness for C10 at a one-entry directory whose single image file is
unreadable. -/
theorem c10_registration_defers_decoding_witness :
    (∃ e ∈ ([⟨("a.jpg").data, true, none⟩] : List RegisterDataset.FsEntry),
      RegisterDataset.isImageFile e = true) ∧
    (∃ files, RegisterDataset.register_image_folder_dataset true
        [⟨("a.jpg").data, true, none⟩] = .ok files ∧
      (∀ e ∈ files, e ∈ ([⟨("a.jpg").data, true, none⟩] :
        List RegisterDataset.FsEntry)) ∧
      ((∀ e ∈ ([⟨("a.jpg").data, true, none⟩] :
          List RegisterDataset.FsEntry), e.decodable = none) →
        RegisterDataset.get_image_dicts files = [])) := by
  refine ⟨by decide, ?_⟩
  exact c10_registration_defers_decoding [⟨("a.jpg").data, true, none⟩]
    (by decide)

theorem resolveGlobal_np :
    PytUtils.resolveGlobal ("np") = .err (.nameError ("np")) := by
  decide

/-- Claim C8 (amended): `decode_labels`, `decode_predictions` and
`inv_preprocess` never return an RGB batch.  `decode_labels` and
`inv_preprocess` raise `NameError` on the unimported `np` for every
input passing their batch-size assertion (and `AssertionError`
otherwise, since the assertion precedes the first `np` use);
`decode_predictions` raises the `np` `NameError` for every input, its
first `np` use preceding its assertion. -/
theorem c8_decode_name_errors (mask : PytUtils.MaskBatch)
    (preds : PytUtils.Preds) (imgs : PytUtils.ImgBatch)
    (ni nc nimg : ℕ) (imgMean : List ℚ) :
    (ni ≤ mask.length →
      PytUtils.decode_labels mask ni nc = .err (.nameError ("np"))) ∧
    (mask.length < ni →
      PytUtils.decode_labels mask ni nc = .err .assertionError) ∧
    PytUtils.decode_predictions preds ni nc = .err (.nameError ("np")) ∧
    (nimg ≤ imgs.length →
      PytUtils.inv_preprocess imgs nimg imgMean = .err (.nameError ("np"))) ∧
    (imgs.length < nimg →
      PytUtils.inv_preprocess imgs nimg imgMean = .err .assertionError) := by
  refine ⟨?_, ?_, ?_, ?_, ?_⟩
  · intro h
    unfold PytUtils.decode_labels
    rw [show pyAssert (decide (ni ≤ mask.length)) = .ok () by
      rw [decide_eq_true h]; rfl]
    rw [show (PytUtils.resolveGlobal ("np")) = .err (.nameError ("np"))
      from resolveGlobal_np]
    rfl
  · intro h
    unfold PytUtils.decode_labels
    rw [show pyAssert (decide (ni ≤ mask.length)) = .err .assertionError by
      rw [decide_eq_false (by omega)]; rfl]
    rfl
  · cases preds with
    | multi ts =>
      show PytUtils.deadMultiTail ni nc = .err (.nameError ("np"))
      unfold PytUtils.deadMultiTail
      rw [resolveGlobal_np]
      rfl
    | single t =>
      unfold PytUtils.decode_predictions
      rw [resolveGlobal_np]
      rfl
  · intro h
    unfold PytUtils.inv_preprocess
    rw [show pyAssert (decide (nimg ≤ imgs.length)) = .ok () by
      rw [decide_eq_true h]; rfl]
    rw [resolveGlobal_np]
    rfl
  · intro h
    unfold PytUtils.inv_preprocess
    rw [show pyAssert (decide (nimg ≤ imgs.length)) = .err .assertionError by
      rw [decide_eq_false (by omega)]; rfl]
    rfl

/-- Counterexample to claim C8 as stated: `decode_labels` on an empty
batch with `num_images = 1` raises `AssertionError`, not the
unresolved-name error — its batch-size assertion precedes the first
`np` use. -/
theorem c8_counterexample :
    PytUtils.decode_labels [] 1 21 = .err .assertionError ∧
    PytUtils.decode_labels [] 1 21 ≠ .err (.nameError ("np")) := by
  constructor
  · decide
  · decide

/-- Witness for the amended C8 at concrete inputs for each of the three
functions and both assertion outcomes. -/
theorem c8_decode_name_errors_witness :
    ((1 : ℕ) ≤ ([[[0]]] : PytUtils.MaskBatch).length ∧
      PytUtils.decode_labels [[[0]]] 1 21 = .err (.nameError ("np"))) ∧
    (([[[0]]] : PytUtils.MaskBatch).length < 2 ∧
      PytUtils.decode_labels [[[0]]] 2 21 = .err .assertionError) ∧
    PytUtils.decode_predictions (.single [[[[0]]]]) 1 21 =
      .err (.nameError ("np")) ∧
    PytUtils.decode_predictions (.multi []) 1 21 =
      .err (.nameError ("np")) ∧
    ((1 : ℕ) ≤ ([[[[0]]]] : PytUtils.ImgBatch).length ∧
      PytUtils.inv_preprocess [[[[0]]]] 1 [0, 0, 0] =
        .err (.nameError ("np"))) := by
  refine ⟨⟨by decide, ?_⟩, ⟨by decide, ?_⟩, ?_, ?_, ⟨by decide, ?_⟩⟩
  · exact (c8_decode_name_errors [[[0]]] (.single [[[[0]]]]) [[[[0]]]]
      1 21 1 [0, 0, 0]).1 (by decide)
  · exact (c8_decode_name_errors [[[0]]] (.single [[[[0]]]]) [[[[0]]]]
      2 21 1 [0, 0, 0]).2.1 (by decide)
  · exact (c8_decode_name_errors [[[0]]] (.single [[[[0]]]]) [[[[0]]]]
      1 21 1 [0, 0, 0]).2.2.1
  · exact (c8_decode_name_errors [[[0]]] (.multi []) [[[[0]]]]
      1 21 1 [0, 0, 0]).2.2.1
  · exact (c8_decode_name_errors [[[0]]] (.single [[[[0]]]]) [[[[0]]]]
      1 21 1 [0, 0, 0]).2.2.2.1 (by decide)

theorem tryRemapGo_eq_find (ms : PytUtils.ModelState) (shape : List ℕ)
    (parts : PytUtils.Key) (l : List ℕ) :
    PytUtils.tryRemapGo ms shape parts l =
      (l.find? (fun i =>
        (PytUtils.pat1Cond parts i || PytUtils.pat2Cond parts i)
          && PytUtils.keyFits ms (PytUtils.insertZeroAfter parts i) shape)).map
        (PytUtils.insertZeroAfter parts) := by
  induction l with
  | nil => rfl
  | cons i rest ih =>
    cases hb1 : PytUtils.pat1Cond parts i <;>
      cases hb2 : PytUtils.pat2Cond parts i <;>
      cases hf : PytUtils.keyFits ms (PytUtils.insertZeroAfter parts i) shape <;>
      simp [PytUtils.tryRemapGo, List.find?_cons, hb1, hb2, hf, ih]

theorem rewriteHit_iff (ms : PytUtils.ModelState) (shape : List ℕ)
    (parts : PytUtils.Key) (i : ℕ) :
    PytUtils.RewriteHit ms shape parts i ↔
      ((PytUtils.pat1Cond parts i || PytUtils.pat2Cond parts i)
        && PytUtils.keyFits ms (PytUtils.insertZeroAfter parts i) shape) = true := by
  unfold PytUtils.RewriteHit PytUtils.pat1Cond PytUtils.pat2Cond PytUtils.keyFits
  simp only [Bool.and_eq_true, Bool.or_eq_true, decide_eq_true_eq]
  tauto

theorem find?_range'_first (p : ℕ → Bool) :
    ∀ n s i : ℕ, s ≤ i → i < s + n → p i = true →
      (∀ j, s ≤ j → j < i → p j = false) →
      (List.range' s n).find? p = some i := by
  intro n
  induction n with
  | zero =>
    intro s i h1 h2 _ _
    omega
  | succ n ih =>
    intro s i h1 h2 hp hfirst
    rw [List.range'_succ, List.find?_cons]
    by_cases hsi : s = i
    · subst hsi
      simp [hp]
    · have hps : p s = false := hfirst s (le_refl s) (by omega)
      simp only [hps]
      exact ih (s + 1) i (by omega) (by omega) hp
        (fun j hj1 hj2 => hfirst j (by omega) hj2)

/-- Claim C2: during checkpoint loading, for every checkpoint key that
is not present in the model's state (or has a mismatched shape), the
loader tries the two `"0"`-segment insertion rewrites — after
`bn1`/`bn2`/`bn3` and after a purely numeric segment, each followed by a
normalization-parameter suffix — and installs the value under the first
(lowest-position) rewritten key that exists in the model with equal
shape; when no rewrite produces such a key, the original key is kept
unchanged. -/
theorem c2_checkpoint_key_remap (ms : PytUtils.ModelState)
    (k : PytUtils.Key) (v : PytUtils.Tensor)
    (hmiss : PytUtils.keyFits ms k v.shape = false) :
    ((∀ i, ¬ PytUtils.RewriteHit ms v.shape k i) →
      PytUtils.remapEntry ms (k, v) = (k, v)) ∧
    (∀ i, PytUtils.RewriteHit ms v.shape k i →
      (∀ j, j < i → ¬ PytUtils.RewriteHit ms v.shape k j) →
      PytUtils.remapEntry ms (k, v) = (PytUtils.insertZeroAfter k i, v)) := by
  constructor
  · intro hnone
    simp only [PytUtils.remapEntry, hmiss, Bool.false_eq_true, if_false]
    rw [PytUtils.tryRemap, tryRemapGo_eq_find]
    rw [List.find?_eq_none.mpr ?_]
    · rfl
    · intro x _ hx
      exact hnone x ((rewriteHit_iff ms v.shape k x).mpr hx)
  · intro i hi hfirst
    simp only [PytUtils.remapEntry, hmiss, Bool.false_eq_true, if_false]
    rw [PytUtils.tryRemap, tryRemapGo_eq_find]
    have hilen : i < k.length := by
      have := hi.1
      omega
    rw [List.range_eq_range']
    rw [find?_range'_first _ k.length 0 i (Nat.zero_le i) (by omega)
      ((rewriteHit_iff ms v.shape k i).mp hi) ?_]
    · rfl
    · intro j _ hj2
      have hnot : ¬ ((PytUtils.pat1Cond k j || PytUtils.pat2Cond k j)
          && PytUtils.keyFits ms (PytUtils.insertZeroAfter k j) v.shape) = true :=
        fun hp => hfirst j hj2 ((rewriteHit_iff ms v.shape k j).mpr hp)
      exact Bool.eq_false_iff.mpr hnot

/-- Witness for C2: the checkpoint key `bn1.weight` is absent from a
model that has `bn1.0.weight` of the same shape, and the pattern-1
rewrite at position 0 installs the value there. -/
theorem c2_checkpoint_key_remap_witness :
    PytUtils.keyFits [(["bn1", "0", "weight"], [4])] ["bn1", "weight"]
      ([4] : List ℕ) = false ∧
    PytUtils.RewriteHit [(["bn1", "0", "weight"], [4])] [4]
      ["bn1", "weight"] 0 ∧
    PytUtils.remapEntry [(["bn1", "0", "weight"], [4])]
      (["bn1", "weight"], ⟨[4], 7⟩) = (["bn1", "0", "weight"], ⟨[4], 7⟩) := by
  refine ⟨by decide, by decide, ?_⟩
  exact (c2_checkpoint_key_remap [(["bn1", "0", "weight"], [4])]
    ["bn1", "weight"] ⟨[4], 7⟩ (by decide)).2 0 (by decide)
    (fun j hj => absurd hj (Nat.not_lt_zero j))

theorem splitOnChar_ne_nil (sep : Char) (l : List Char) :
    splitOnChar sep l ≠ [] := by
  cases l with
  | nil => simp [splitOnChar]
  | cons c rest =>
    rw [splitOnChar]
    rcases h : splitOnChar sep rest with _ | ⟨h0, t0⟩
    · simp
    · by_cases hc : c = sep <;> simp [hc]

theorem splitOnChar_of_not_mem (sep : Char) (l : List Char)
    (h : sep ∉ l) : splitOnChar sep l = [l] := by
  induction l with
  | nil => rfl
  | cons c rest ih =>
    have hc : c ≠ sep := fun hcc => h (hcc ▸ List.mem_cons_self c rest)
    have hr : sep ∉ rest := fun hm => h (List.mem_cons_of_mem c hm)
    rw [splitOnChar, ih hr]
    simp [hc]

theorem splitOnChar_append_cons (sep : Char) (a b : List Char)
    (ha : sep ∉ a) :
    splitOnChar sep (a ++ sep :: b) = a :: splitOnChar sep b := by
  induction a with
  | nil =>
    rw [List.nil_append, splitOnChar]
    rcases h : splitOnChar sep b with _ | ⟨h0, t0⟩
    · exact absurd h (splitOnChar_ne_nil sep b)
    · simp
  | cons c rest ih =>
    have hc : c ≠ sep := fun hcc => ha (hcc ▸ List.mem_cons_self c rest)
    have hr : sep ∉ rest := fun hm => ha (List.mem_cons_of_mem c hm)
    rw [List.cons_append, splitOnChar, ih hr]
    simp [hc]

theorem getLastD_default_irrel (l : List Char) (h : l ≠ []) (d1 d2 : Char) :
    l.getLastD d1 = l.getLastD d2 := by
  cases l with
  | nil => exact absurd rfl h
  | cons x xs => rw [List.getLastD_cons, List.getLastD_cons]

theorem getLastD_append_of_ne_nil (a b : List Char) (hb : b ≠ []) :
    ∀ d, (a ++ b).getLastD d = b.getLastD d := by
  induction a with
  | nil => intro d; rfl
  | cons x xs ih =>
    intro d
    rw [List.cons_append, List.getLastD_cons, ih x]
    exact getLastD_default_irrel b hb x d

theorem getLastD_mem (l : List Char) : ∀ d, l ≠ [] → l.getLastD d ∈ l := by
  induction l with
  | nil => intro d h; exact absurd rfl h
  | cons x xs ih =>
    intro d _
    rw [List.getLastD_cons]
    by_cases hxs : xs = []
    · subst hxs
      simp [List.getLastD]
    · exact List.mem_cons_of_mem x (ih x hxs)

theorem pyInt?_isSome_facts (s : List Char)
    (hs : (pyInt? s).isSome = true) :
    s ≠ [] ∧ (∀ c ∈ s, c = '-' ∨ c = '+' ∨ c.isDigit = true) ∧
    ∀ d, ((s.getLastD d).isDigit = true) := by
  have hdig : ∀ (r : List Char), allDigits r = true →
      r ≠ [] ∧ ∀ c ∈ r, c.isDigit = true := by
    intro r hr
    rw [allDigits, Bool.and_eq_true, Bool.not_eq_true', List.isEmpty_eq_false] at hr
    exact ⟨hr.1, fun c hc => by
      have := hr.2
      rw [List.all_eq_true] at this
      exact this c hc⟩
  have hlastd : ∀ (r : List Char), r ≠ [] → (∀ c ∈ r, c.isDigit = true) →
      ∀ d, ((r.getLastD d).isDigit = true) := by
    intro r hne hall d
    exact hall _ (getLastD_mem r d hne)
  cases s with
  | nil => exact absurd hs (by decide)
  | cons c rest =>
    simp only [pyInt?, List.headD_cons, List.tail_cons] at hs
    by_cases hc1 : c = '-'
    · subst hc1
      rw [if_pos rfl] at hs
      by_cases hd : allDigits rest = true
      · obtain ⟨hne, hall⟩ := hdig rest hd
        refine ⟨by simp, ?_, ?_⟩
        · intro x hx
          rcases List.mem_cons.mp hx with rfl | hx'
          · exact Or.inl rfl
          · exact Or.inr (Or.inr (hall x hx'))
        · intro d
          rw [List.getLastD_cons]
          exact hlastd rest hne hall '-'
      · rw [if_neg hd] at hs
        exact absurd hs (by decide)
    · by_cases hc2 : c = '+'
      · subst hc2
        rw [if_neg (by decide), if_pos rfl] at hs
        by_cases hd : allDigits rest = true
        · obtain ⟨hne, hall⟩ := hdig rest hd
          refine ⟨by simp, ?_, ?_⟩
          · intro x hx
            rcases List.mem_cons.mp hx with rfl | hx'
            · exact Or.inr (Or.inl rfl)
            · exact Or.inr (Or.inr (hall x hx'))
          · intro d
            rw [List.getLastD_cons]
            exact hlastd rest hne hall '+'
        · rw [if_neg hd] at hs
          exact absurd hs (by decide)
      · rw [if_neg hc1, if_neg hc2] at hs
        by_cases hd : allDigits (c :: rest) = true
        · obtain ⟨hne, hall⟩ := hdig _ hd
          refine ⟨by simp, fun x hx => Or.inr (Or.inr (hall x hx)), ?_⟩
          intro d
          exact hlastd _ hne hall d
        · rw [if_neg hd] at hs
          exact absurd hs (by decide)

theorem processTok_num (count : ℕ) (s : List Char) (n : ℤ)
    (h1 : '-' ∉ s) (hn : pyInt? s = some n) :
    PytUtils.processTok count s =
      (do
        pyAssert (n < (count : ℤ))
        pure [n] : PyResult (List ℤ)) := by
  rw [PytUtils.processTok, if_neg h1, hn]

theorem processTok_rng (count : ℕ) (s1 s2 : List Char) (a b : ℤ)
    (h1 : '-' ∉ s1) (h2 : '-' ∉ s2) (hne1 : s1 ≠ []) (hne2 : s2 ≠ [])
    (ha : pyInt? s1 = some a) (hb : pyInt? s2 = some b) :
    PytUtils.processTok count (s1 ++ '-' :: s2) =
      (do
        pyAssert (a < b)
        pyAssert (b < (count : ℤ))
        pure (PytUtils.intRange a (b + 1)) : PyResult (List ℤ)) := by
  have hmem : '-' ∈ s1 ++ '-' :: s2 :=
    List.mem_append.mpr (Or.inr (List.mem_cons_self '-' s2))
  have he1 : s1.isEmpty = false := List.isEmpty_eq_false.mpr hne1
  have he2 : s2.isEmpty = false := List.isEmpty_eq_false.mpr hne2
  rw [PytUtils.processTok, if_pos hmem]
  simp only [splitOnChar_append_cons '-' s1 s2 h1,
    splitOnChar_of_not_mem '-' s2 h2, List.getD_cons_zero, List.getD_cons_succ,
    he1, he2, ha, hb]
  rfl

theorem processTok_good (count : ℕ) (t : PytUtils.DevTok)
    (h : PytUtils.goodTok count t = true) :
    PytUtils.processTok count (PytUtils.tokStr t) = .ok (PytUtils.tokVal t) := by
  cases t with
  | num s =>
    simp only [PytUtils.goodTok, PytUtils.wfTok, Bool.and_eq_true,
      decide_eq_true_eq] at h
    obtain ⟨⟨hnm, hsome⟩, hlt⟩ := h
    obtain ⟨n, hn⟩ := Option.isSome_iff_exists.mp hsome
    rw [PytUtils.tokStr, processTok_num count s n hnm hn]
    rw [hn] at hlt
    simp only [Option.getD_some] at hlt
    rw [show pyAssert (decide (n < (count : ℤ))) = .ok () from by
      rw [decide_eq_true hlt]; rfl]
    simp only [PytUtils.tokVal, hn, Option.getD_some]
    rfl
  | rng s1 s2 =>
    simp only [PytUtils.goodTok, PytUtils.wfTok, Bool.and_eq_true,
      decide_eq_true_eq, Bool.not_eq_true', List.isEmpty_eq_false] at h
    obtain ⟨⟨⟨⟨⟨⟨hnm1, hnm2⟩, hne1⟩, hne2⟩, hsome1⟩, hsome2⟩, hab, hbc⟩ := h
    obtain ⟨a, ha⟩ := Option.isSome_iff_exists.mp hsome1
    obtain ⟨b, hb⟩ := Option.isSome_iff_exists.mp hsome2
    rw [ha] at hab
    rw [hb] at hab hbc
    simp only [Option.getD_some] at hab hbc
    rw [PytUtils.tokStr, processTok_rng count s1 s2 a b hnm1 hnm2 hne1 hne2 ha hb]
    rw [show pyAssert (decide (a < b)) = .ok () from by
      rw [decide_eq_true hab]; rfl]
    rw [show pyAssert (decide (b < (count : ℤ))) = .ok () from by
      rw [decide_eq_true hbc]; rfl]
    simp only [PytUtils.tokVal, ha, hb, Option.getD_some]
    rfl

theorem processTok_wf_bad (count : ℕ) (t : PytUtils.DevTok)
    (hwf : PytUtils.wfTok t = true)
    (hbad : PytUtils.rangeViolation count t = true) :
    PytUtils.processTok count (PytUtils.tokStr t) = .err .assertionError := by
  cases t with
  | num s => exact absurd hbad (by simp [PytUtils.rangeViolation])
  | rng s1 s2 =>
    simp only [PytUtils.wfTok, Bool.and_eq_true, decide_eq_true_eq,
      Bool.not_eq_true', List.isEmpty_eq_false] at hwf
    obtain ⟨⟨⟨⟨⟨hnm1, hnm2⟩, hne1⟩, hne2⟩, hsome1⟩, hsome2⟩ := hwf
    obtain ⟨a, ha⟩ := Option.isSome_iff_exists.mp hsome1
    obtain ⟨b, hb⟩ := Option.isSome_iff_exists.mp hsome2
    simp only [PytUtils.rangeViolation, ha, hb, Option.getD_some,
      Bool.or_eq_true, Bool.not_eq_true', decide_eq_false_iff_not] at hbad
    rw [PytUtils.tokStr, processTok_rng count s1 s2 a b hnm1 hnm2 hne1 hne2 ha hb]
    by_cases h1 : a < b
    · have h2 : ¬ b < (count : ℤ) := by
        rcases hbad with hcon | hcon
        · exact absurd h1 hcon
        · exact hcon
      rw [show pyAssert (decide (a < b)) = .ok () from by
        rw [decide_eq_true h1]; rfl]
      rw [show pyAssert (decide (b < (count : ℤ))) = .err .assertionError from by
        rw [decide_eq_false h2]; rfl]
      rfl
    · rw [show pyAssert (decide (a < b)) = .err .assertionError from by
        rw [decide_eq_false h1]; rfl]
      rfl

theorem processTok_wf_dichotomy (count : ℕ) (t : PytUtils.DevTok)
    (hwf : PytUtils.wfTok t = true) :
    (∃ ds, PytUtils.processTok count (PytUtils.tokStr t) = .ok ds) ∨
    PytUtils.processTok count (PytUtils.tokStr t) = .err .assertionError := by
  cases t with
  | num s =>
    simp only [PytUtils.wfTok, Bool.and_eq_true, decide_eq_true_eq] at hwf
    obtain ⟨hnm, hsome⟩ := hwf
    obtain ⟨n, hn⟩ := Option.isSome_iff_exists.mp hsome
    rw [PytUtils.tokStr, processTok_num count s n hnm hn]
    by_cases hlt : n < (count : ℤ)
    · left
      refine ⟨[n], ?_⟩
      rw [show pyAssert (decide (n < (count : ℤ))) = .ok () from by
        rw [decide_eq_true hlt]; rfl]
      rfl
    · right
      rw [show pyAssert (decide (n < (count : ℤ))) = .err .assertionError from by
        rw [decide_eq_false hlt]; rfl]
      rfl
  | rng s1 s2 =>
    by_cases hbad : PytUtils.rangeViolation count (.rng s1 s2) = true
    · right
      exact processTok_wf_bad count _ hwf hbad
    · left
      refine ⟨PytUtils.tokVal (.rng s1 s2), ?_⟩
      apply processTok_good
      simp only [PytUtils.rangeViolation, Bool.or_eq_true, Bool.not_eq_true',
        decide_eq_false_iff_not, not_or, not_not] at hbad
      simp only [PytUtils.goodTok, Bool.and_eq_true]
      refine ⟨hwf, ?_, ?_⟩
      · exact decide_eq_true hbad.1
      · exact decide_eq_true hbad.2

theorem parseToks_good (count : ℕ) :
    ∀ toks : List PytUtils.DevTok,
      (∀ t ∈ toks, PytUtils.goodTok count t = true) →
      PytUtils.parseToks count (toks.map PytUtils.tokStr) =
        .ok (toks.flatMap PytUtils.tokVal) := by
  intro toks
  induction toks with
  | nil => intro _; rfl
  | cons t ts ih =>
    intro hgood
    rw [List.map_cons, PytUtils.parseToks,
      processTok_good count t (hgood t (List.mem_cons_self t ts)),
      ih (fun u hu => hgood u (List.mem_cons_of_mem t hu)),
      List.flatMap_cons]
    rfl

theorem parseToks_fail (count : ℕ) :
    ∀ toks : List PytUtils.DevTok,
      (∀ t ∈ toks, PytUtils.wfTok t = true) →
      (∃ t ∈ toks, PytUtils.rangeViolation count t = true) →
      PytUtils.parseToks count (toks.map PytUtils.tokStr) =
        .err .assertionError := by
  intro toks
  induction toks with
  | nil =>
    intro _ hex
    obtain ⟨t, ht, _⟩ := hex
    exact absurd ht (List.not_mem_nil t)
  | cons t ts ih =>
    intro hwf hex
    rw [List.map_cons, PytUtils.parseToks]
    obtain ⟨t', ht', hbad⟩ := hex
    rcases List.mem_cons.mp ht' with rfl | hts
    · rw [processTok_wf_bad count t' (hwf t' (List.mem_cons_self t' ts)) hbad]
      rfl
    · rcases processTok_wf_dichotomy count t
        (hwf t (List.mem_cons_self t ts)) with ⟨ds, hok⟩ | herr
      · rw [hok, ih (fun u hu => hwf u (List.mem_cons_of_mem t hu))
          ⟨t', hts, hbad⟩]
        rfl
      · rw [herr]
        rfl

theorem tokStr_facts (t : PytUtils.DevTok) (hwf : PytUtils.wfTok t = true) :
    PytUtils.tokStr t ≠ [] ∧ ',' ∉ PytUtils.tokStr t ∧
    (((PytUtils.tokStr t).getLastD ' ').isDigit = true) := by
  cases t with
  | num s =>
    simp only [PytUtils.wfTok, Bool.and_eq_true, decide_eq_true_eq] at hwf
    obtain ⟨hne, hfacts⟩ := pyInt?_isSome_facts s hwf.2
    refine ⟨hne, ?_, hfacts.2 ' '⟩
    intro hcm
    rcases hfacts.1 ',' hcm with h | h | h <;> exact absurd h (by decide)
  | rng s1 s2 =>
    simp only [PytUtils.wfTok, Bool.and_eq_true, decide_eq_true_eq] at hwf
    obtain ⟨⟨⟨⟨⟨hnm1, hnm2⟩, hne1⟩, hne2⟩, hsome1⟩, hsome2⟩ := hwf
    obtain ⟨hne1', hchars1, _⟩ := pyInt?_isSome_facts s1 hsome1
    obtain ⟨hne2', hchars2, hlast2⟩ := pyInt?_isSome_facts s2 hsome2
    refine ⟨by simp [PytUtils.tokStr], ?_, ?_⟩
    · intro hcm
      rw [PytUtils.tokStr] at hcm
      rcases List.mem_append.mp hcm with h | h
      · rcases hchars1 ',' h with h' | h' | h' <;> exact absurd h' (by decide)
      · rcases List.mem_cons.mp h with h' | h'
        · exact absurd h' (by decide)
        · rcases hchars2 ',' h' with h'' | h'' | h'' <;>
            exact absurd h'' (by decide)
    · rw [PytUtils.tokStr,
        getLastD_append_of_ne_nil s1 ('-' :: s2) (by simp) ' ',
        List.getLastD_cons]
      exact hlast2 '-'

theorem devString_ne_nil (toks : List PytUtils.DevTok) (hne : toks ≠ [])
    (hwf : ∀ t ∈ toks, PytUtils.wfTok t = true) :
    PytUtils.devString toks ≠ [] := by
  cases toks with
  | nil => exact absurd rfl hne
  | cons t ts =>
    cases ts with
    | nil =>
      exact (tokStr_facts t (hwf t (List.mem_cons_self t []))).1
    | cons t2 ts2 =>
      rw [show PytUtils.devString (t :: t2 :: ts2) = PytUtils.tokStr t ++ ',' :: PytUtils.devString (t2 :: ts2) from rfl]
      intro hcon
      have := (tokStr_facts t (hwf t (List.mem_cons_self t _))).1
      rcases hstr : PytUtils.tokStr t with _ | ⟨c, r⟩
      · exact this hstr
      · rw [hstr] at hcon
        simp at hcon

theorem devString_split (toks : List PytUtils.DevTok) (hne : toks ≠ [])
    (hwf : ∀ t ∈ toks, PytUtils.wfTok t = true) :
    splitOnChar ',' (PytUtils.devString toks) = toks.map PytUtils.tokStr := by
  induction toks with
  | nil => exact absurd rfl hne
  | cons t ts ih =>
    cases ts with
    | nil =>
      rw [PytUtils.devString, List.map_cons, List.map_nil]
      exact splitOnChar_of_not_mem ','
        (PytUtils.tokStr t)
        (tokStr_facts t (hwf t (List.mem_cons_self t []))).2.1
    | cons t2 ts2 =>
      rw [show PytUtils.devString (t :: t2 :: ts2) = PytUtils.tokStr t ++ ',' :: PytUtils.devString (t2 :: ts2) from rfl]
      rw [List.map_cons]
      rw [splitOnChar_append_cons ',' (PytUtils.tokStr t)
        (PytUtils.devString (t2 :: ts2))
        (tokStr_facts t (hwf t (List.mem_cons_self t _))).2.1]
      rw [ih (List.cons_ne_nil t2 ts2) (fun u hu => hwf u (List.mem_cons_of_mem t hu))]

theorem devString_last_digit (toks : List PytUtils.DevTok) (hne : toks ≠ [])
    (hwf : ∀ t ∈ toks, PytUtils.wfTok t = true) :
    (((PytUtils.devString toks).getLastD ' ').isDigit = true) := by
  induction toks with
  | nil => exact absurd rfl hne
  | cons t ts ih =>
    cases ts with
    | nil =>
      exact (tokStr_facts t (hwf t (List.mem_cons_self t []))).2.2
    | cons t2 ts2 =>
      rw [show PytUtils.devString (t :: t2 :: ts2) = PytUtils.tokStr t ++ ',' :: PytUtils.devString (t2 :: ts2) from rfl]
      have hdne : PytUtils.devString (t2 :: ts2) ≠ [] :=
        devString_ne_nil (t2 :: ts2) (List.cons_ne_nil t2 ts2)
          (fun u hu => hwf u (List.mem_cons_of_mem t hu))
      rw [getLastD_append_of_ne_nil _ (',' :: PytUtils.devString (t2 :: ts2))
        (by simp) ' ', List.getLastD_cons]
      rw [getLastD_default_irrel _ hdne ',' ' ']
      exact ih (List.cons_ne_nil t2 ts2) (fun u hu => hwf u (List.mem_cons_of_mem t hu))

theorem goodTok_wf (count : ℕ) (t : PytUtils.DevTok)
    (h : PytUtils.goodTok count t = true) : PytUtils.wfTok t = true := by
  simp only [PytUtils.goodTok, Bool.and_eq_true] at h
  exact h.1

/-- Claim C3: for every device specification string that is a
comma-separated list of integer tokens and range tokens `a-b`,
`parse_devices` returns the integers and all inclusive range members in
order (duplicates preserved) when every integer is below the device
count and every range satisfies `a < b` and `b < count`; and it raises
an assertion error whenever some range token has `a < b` failing or `b`
not strictly below the device count. -/
theorem c3_parse_devices (count : ℕ) (toks : List PytUtils.DevTok)
    (hne : toks ≠ []) :
    ((∀ t ∈ toks, PytUtils.goodTok count t = true) →
      PytUtils.parse_devices count (PytUtils.devString toks) =
        .ok (toks.flatMap PytUtils.tokVal)) ∧
    ((∀ t ∈ toks, PytUtils.wfTok t = true) →
      (∃ t ∈ toks, PytUtils.rangeViolation count t = true) →
      PytUtils.parse_devices count (PytUtils.devString toks) =
        .err .assertionError) := by
  constructor
  · intro hgood
    have hwf : ∀ t ∈ toks, PytUtils.wfTok t = true :=
      fun t ht => goodTok_wf count t (hgood t ht)
    have hstar : ¬ ((PytUtils.devString toks).getLastD ' ' = '*') := by
      intro h
      have hd := devString_last_digit toks hne hwf
      rw [h] at hd
      exact absurd hd (by decide)
    rw [PytUtils.parse_devices, if_neg hstar, devString_split toks hne hwf]
    exact parseToks_good count toks hgood
  · intro hwf hex
    have hstar : ¬ ((PytUtils.devString toks).getLastD ' ' = '*') := by
      intro h
      have hd := devString_last_digit toks hne hwf
      rw [h] at hd
      exact absurd hd (by decide)
    rw [PytUtils.parse_devices, if_neg hstar, devString_split toks hne hwf]
    exact parseToks_fail count toks hwf hex

/-- Witness for C3: the specification string `"0-2"` parses to
`[0, 1, 2]` with 4 devices present, and raises an assertion error with
only 2 devices present. -/
theorem c3_parse_devices_witness :
    ([PytUtils.DevTok.rng ['0'] ['2']] ≠ []) ∧
    (∀ t ∈ [PytUtils.DevTok.rng ['0'] ['2']], PytUtils.goodTok 4 t = true) ∧
    PytUtils.parse_devices 4 (PytUtils.devString [PytUtils.DevTok.rng ['0'] ['2']]) =
      .ok [0, 1, 2] ∧
    (∀ t ∈ [PytUtils.DevTok.rng ['0'] ['2']], PytUtils.wfTok t = true) ∧
    (∃ t ∈ [PytUtils.DevTok.rng ['0'] ['2']],
      PytUtils.rangeViolation 2 t = true) ∧
    PytUtils.parse_devices 2 (PytUtils.devString [PytUtils.DevTok.rng ['0'] ['2']]) =
      .err .assertionError := by
  have hne : ([PytUtils.DevTok.rng ['0'] ['2']] :
      List PytUtils.DevTok) ≠ [] := by
    intro h
    simp at h
  have hgood : ∀ t ∈ [PytUtils.DevTok.rng ['0'] ['2']],
      PytUtils.goodTok 4 t = true := by decide
  have hwf : ∀ t ∈ [PytUtils.DevTok.rng ['0'] ['2']],
      PytUtils.wfTok t = true := by decide
  have hbad : ∃ t ∈ [PytUtils.DevTok.rng ['0'] ['2']],
      PytUtils.rangeViolation 2 t = true := by
    refine ⟨PytUtils.DevTok.rng ['0'] ['2'], ?_, by decide⟩
    exact List.mem_cons_self _ _
  refine ⟨hne, hgood, ?_, hwf, hbad, ?_⟩
  · have h := (c3_parse_devices 4 [PytUtils.DevTok.rng ['0'] ['2']] hne).1 hgood
    rw [h]
    decide
  · exact (c3_parse_devices 2 [PytUtils.DevTok.rng ['0'] ['2']] hne).2 hwf hbad
